import Mathlib

/-!
Verification development for a blackjack simulator with a Hi-Lo card
counter.  The Python sources (`blackjack.py`, `blackjack_bot.py`) are
shallowly embedded below: pure functions become Lean functions, mutation
becomes explicit state passing, Python floats are modelled as exact
rationals (`ℚ`), Python object identity (`id(card)`) is modelled as a
stable `Nat` sequence id assigned at shoe construction, and fallible
operations (popping from an empty list) return `Option`.
-/

namespace Blackjack

/-- Card suits (♠, ♥, ♦, ♣). -/
inductive Suit where
  | spades | hearts | diamonds | clubs
deriving DecidableEq, Repr

/-- Card ranks '2'..'10', 'J', 'Q', 'K', 'A' as in `Deck.__init__`. -/
inductive Rank where
  | r2 | r3 | r4 | r5 | r6 | r7 | r8 | r9 | r10 | rJ | rQ | rK | rA
deriving DecidableEq, Repr

/-- A playing card.  `id` models Python object identity: every card built
at shoe construction receives a distinct sequence id, so two cards of the
same rank and suit drawn from a multi-deck shoe are distinct entities. -/
structure Card where
  id : Nat
  suit : Suit
  rank : Rank
deriving DecidableEq, Repr

/-- `Card.value`: J, Q, K are worth 10; A starts at 11 (reduced later in
`Hand.get_value` if needed); number cards are worth their face value. -/
def Card.value (c : Card) : Nat :=
  match c.rank with
  | .rJ | .rQ | .rK => 10
  | .rA => 11
  | .r2 => 2 | .r3 => 3 | .r4 => 4 | .r5 => 5 | .r6 => 6
  | .r7 => 7 | .r8 => 8 | .r9 => 9 | .r10 => 10

/-- Per-card value with every ace forced to 1 (the `hard_value` sum the
strategy functions compute inline: `10 if c.rank in ['J','Q','K'] else
(1 if c.rank == 'A' else int(c.rank))`). -/
def Card.hardValue (c : Card) : Nat :=
  match c.rank with
  | .rJ | .rQ | .rK => 10
  | .rA => 1
  | .r2 => 2 | .r3 => 3 | .r4 => 4 | .r5 => 5 | .r6 => 6
  | .r7 => 7 | .r8 => 8 | .r9 => 9 | .r10 => 10

namespace Hand

/-- The ace-reduction loop of `Hand.get_value`:
`while value > 21 and aces: value -= 10; aces -= 1`. -/
def reduceAces : Nat → Nat → Nat
  | v, 0 => v
  | v, a + 1 => if 21 < v then reduceAces (v - 10) a else v

/-- Number of aces in the hand. -/
def aceCount (cards : List Card) : Nat :=
  (cards.filter (fun c => c.rank = Rank.rA)).length

/-- Nominal sum of per-card values (aces counted as 11). -/
def nominalSum (cards : List Card) : Nat :=
  (cards.map Card.value).sum

/-- Sum of per-card values with every ace counted as 1 — the minimal
achievable hand total, and the `hard_value` the strategies compute. -/
def hard_value (cards : List Card) : Nat :=
  (cards.map Card.hardValue).sum

/-- `Hand.get_value`: sum all card values (aces as 11), then while the
total exceeds 21 and unreduced aces remain, subtract 10 per ace. -/
def get_value (cards : List Card) : Nat :=
  reduceAces (nominalSum cards) (aceCount cards)

/-- `Hand.is_blackjack`: exactly 2 cards totalling 21. -/
def is_blackjack (cards : List Card) : Prop :=
  cards.length = 2 ∧ get_value cards = 21

instance (cards : List Card) : Decidable (is_blackjack cards) := by
  unfold is_blackjack; infer_instance

/-- `Hand.is_bust`: hand value exceeds 21. -/
def is_bust (cards : List Card) : Prop :=
  21 < get_value cards

instance (cards : List Card) : Decidable (is_bust cards) := by
  unfold is_bust; infer_instance

/-- `any(card.rank == 'A' for card in hand.cards)`. -/
def has_ace (cards : List Card) : Prop :=
  ∃ c ∈ cards, c.rank = Rank.rA

instance (cards : List Card) : Decidable (has_ace cards) := by
  unfold has_ace; infer_instance

end Hand

/-- Suit list from `Deck.__init__`. -/
def allSuits : List Suit := [.spades, .hearts, .diamonds, .clubs]

/-- Rank list from `Deck.__init__`. -/
def allRanks : List Rank :=
  [.r2, .r3, .r4, .r5, .r6, .r7, .r8, .r9, .r10, .rJ, .rQ, .rK, .rA]

/-- The (suit, rank) combinations of a `num_decks`-deck shoe, in the
build order of `Deck.__init__`: for each deck copy, for each suit, for
each rank. -/
def deckPairs (num_decks : Nat) : List (Suit × Rank) :=
  (List.range num_decks).flatMap fun _ =>
    allSuits.flatMap fun s => allRanks.map fun r => (s, r)

/-- The cards of a freshly built shoe, each given a distinct sequence id
(modelling that each Python `Card(...)` call creates a fresh object). -/
def shoeCards (num_decks : Nat) : List Card :=
  (deckPairs num_decks).enum.map fun p => ⟨p.1, p.2.1, p.2.2⟩

/-- A deck/shoe.  `cards` is the current (shuffled) card sequence;
`total_cards` is fixed at construction.  The random shuffle is a
permutation of the card list, irrelevant to the claims proved here. -/
structure Deck where
  cards : List Card
  num_decks : Nat
  total_cards : Nat
deriving DecidableEq, Repr

/-- `Deck.__init__`: build all suit×rank combinations times `num_decks`
and record the total (the shuffle permutes `cards`; we take the identity
permutation as a representative). -/
def Deck.init (num_decks : Nat) : Deck :=
  { cards := shoeCards num_decks
    num_decks := num_decks
    total_cards := (shoeCards num_decks).length }

/-- `Deck.cards_remaining`. -/
def Deck.cards_remaining (d : Deck) : Nat := d.cards.length

/-- `Deck.deal` without a counter: `self.cards.pop()` removes and
returns the LAST element; popping an empty list is a Python error,
modelled as `none`. -/
def Deck.deal (d : Deck) : Option (Card × Deck) :=
  match d.cards.getLast? with
  | none => none
  | some c => some (c, { d with cards := d.cards.dropLast })

/-- `Deck.penetration`: percentage of cards dealt. -/
def Deck.penetration (d : Deck) : ℚ :=
  ((d.total_cards : ℚ) - (d.cards.length : ℚ)) / (d.total_cards : ℚ) * 100

/-- `Deck.needs_shuffle`: penetration has reached the threshold. -/
def Deck.needs_shuffle (d : Deck) (threshold : ℚ) : Prop :=
  threshold ≤ d.penetration

instance (d : Deck) (threshold : ℚ) : Decidable (d.needs_shuffle threshold) := by
  unfold Deck.needs_shuffle; infer_instance

/-- Hi-Lo tag of a rank: +1 for 2–6, −1 for 10/J/Q/K/A, 0 for 7–9,
mirroring the two membership tests in `CardCounter.update`. -/
def hiloValue (r : Rank) : Int :=
  if r ∈ [Rank.r2, .r3, .r4, .r5, .r6] then 1
  else if r ∈ [Rank.r10, .rJ, .rQ, .rK, .rA] then -1
  else 0

/-- `CardCounter` state: running count, number of distinct cards seen,
and the set of observed card identities. -/
structure CardCounter where
  running_count : Int
  cards_seen : Nat
  seen_cards : Finset Nat
deriving DecidableEq

/-- `CardCounter.__init__` / the state after `reset()`. -/
def CardCounter.init : CardCounter :=
  { running_count := 0, cards_seen := 0, seen_cards := ∅ }

/-- `CardCounter.update`: ignore a card whose identity was already
observed; otherwise record the identity, bump `cards_seen`, and adjust
the running count by the card's Hi-Lo tag. -/
def CardCounter.update (st : CardCounter) (c : Card) : CardCounter :=
  if c.id ∈ st.seen_cards then st
  else
    { running_count := st.running_count + hiloValue c.rank
      cards_seen := st.cards_seen + 1
      seen_cards := insert c.id st.seen_cards }

/-- Feed a list of cards to the counter in order. -/
def CardCounter.observeAll (st : CardCounter) (cards : List Card) : CardCounter :=
  cards.foldl CardCounter.update st

/-- `CardCounter.get_true_count`: with no argument, estimate
`decks_remaining = max((52 − cards_seen)/52, 0.5)`; replace a
non-positive estimate by 0.5; return `running_count / decks_remaining`.
Python floats are modelled as exact rationals. -/
def CardCounter.get_true_count (st : CardCounter) (decks_remaining : Option ℚ) : ℚ :=
  let d0 : ℚ :=
    match decks_remaining with
    | none => max ((52 - (st.cards_seen : ℚ)) / 52) (1 / 2)
    | some x => x
  let d : ℚ := if d0 ≤ 0 then 1 / 2 else d0
  (st.running_count : ℚ) / d

/-- Player actions.  The spec treats any other value returned by a
strategy as a contract violation, so strategies are embedded as total
functions into this type. -/
inductive Action where
  | hit | stand
deriving DecidableEq, Repr

/-- `BlackjackBot.get_bet_size`: the bet ramp on the true count.  The
`if true_count < 2` in the source starts a new `if` statement, but every
earlier branch returns, so the chain is equivalent to nested
conditionals. -/
def get_bet_size (true_count : ℚ) : Nat :=
  if true_count < 0 then 0
  else if true_count < 1 then 1
  else if true_count < 2 then 2
  else if true_count < 3 then 5
  else if true_count < 4 then 10
  else if true_count < 5 then 25
  else 50

/-- `GameStats` accumulator.  `bankroll` is a Python float (a 3:2
blackjack payout is `bet * 1.5`), modelled as ℚ; `total_bet` stays an
integer. -/
structure GameStats where
  wins : Nat
  losses : Nat
  pushes : Nat
  blackjacks : Nat
  busts : Nat
  total_games : Nat
  bankroll : ℚ
  total_bet : Int
deriving DecidableEq, Repr

/-- The result strings `'win'`/`'loss'`/`'push'` passed to
`GameStats.record_result` (the only values the callers produce). -/
inductive RoundResult where
  | win | loss | push
deriving DecidableEq, Repr

/-- `GameStats.record_result`: always bump `total_games` and
`total_bet`; a win adds the bet (times 1.5 with the blackjack flag) to
the bankroll, a loss subtracts the bet, a push leaves it unchanged. -/
def GameStats.record_result (s : GameStats) (result : RoundResult)
    (bet_amount : Int) (is_bj : Bool) (is_bust_flag : Bool) : GameStats :=
  let s1 := { s with total_games := s.total_games + 1,
                     total_bet := s.total_bet + bet_amount }
  match result with
  | .win =>
      let s2 := { s1 with wins := s1.wins + 1 }
      if is_bj then
        { s2 with blackjacks := s2.blackjacks + 1,
                  bankroll := s2.bankroll + (bet_amount : ℚ) * (3 / 2) }
      else
        { s2 with bankroll := s2.bankroll + (bet_amount : ℚ) }
  | .loss =>
      let s2 := { s1 with losses := s1.losses + 1,
                          bankroll := s1.bankroll - (bet_amount : ℚ) }
      if is_bust_flag then { s2 with busts := s2.busts + 1 } else s2
  | .push => { s1 with pushes := s1.pushes + 1 }

/-- `BlackjackBot._record_game_result`: classify the final hands
(checking busts first, then naturals, then values) and record the
outcome. -/
def record_game_result (player dealer : List Card) (bet : Int)
    (s : GameStats) : GameStats :=
  if Hand.is_bust player then s.record_result .loss bet false true
  else if Hand.is_bust dealer then s.record_result .win bet false false
  else if Hand.is_blackjack player ∧ ¬ Hand.is_blackjack dealer then
    s.record_result .win bet true false
  else if Hand.is_blackjack dealer ∧ ¬ Hand.is_blackjack player then
    s.record_result .loss bet false false
  else if Hand.get_value dealer < Hand.get_value player then
    s.record_result .win bet false false
  else if Hand.get_value player < Hand.get_value dealer then
    s.record_result .loss bet false false
  else s.record_result .push bet false false

/-- The outcome precedence exactly as the claim states it (naturals
checked before busts) — the reference point the code's classification is
compared against. -/
def claimed_record (player dealer : List Card) (bet : Int)
    (s : GameStats) : GameStats :=
  if Hand.is_blackjack player ∧ ¬ Hand.is_blackjack dealer then
    s.record_result .win bet true false
  else if Hand.is_blackjack dealer ∧ ¬ Hand.is_blackjack player then
    s.record_result .loss bet false false
  else if Hand.is_bust player then s.record_result .loss bet false true
  else if Hand.is_bust dealer then s.record_result .win bet false false
  else if Hand.get_value dealer < Hand.get_value player then
    s.record_result .win bet false false
  else if Hand.get_value player < Hand.get_value dealer then
    s.record_result .loss bet false false
  else s.record_result .push bet false false

/-- Dealer up-card value as both strategy functions re-derive it from
the rank: J/Q/K → 10, A → 11, numerals at face value (the same mapping
as `Card.value`). -/
def dealer_up_value (c : Card) : Nat := c.value

/-- The soft-hand test both strategy functions compute inline: the hand
has an ace, its value differs from the all-aces-one hard sum, and the
value is at most 21. -/
def strategy_is_soft (cards : List Card) : Prop :=
  Hand.has_ace cards ∧
  Hand.get_value cards ≠ Hand.hard_value cards ∧
  Hand.get_value cards ≤ 21

instance (cards : List Card) : Decidable (strategy_is_soft cards) := by
  unfold strategy_is_soft; infer_instance

/-- `basic_strategy`: the canonical basic-strategy chart as the source
implements it.  The inputs are the round state it actually reads: the
player's cards and the dealer's up-card. -/
def basic_strategy (player : List Card) (dealer_up : Card) : Action :=
  let player_value := Hand.get_value player
  let dealer_value := dealer_up_value dealer_up
  if strategy_is_soft player then
    if 19 ≤ player_value then .stand
    else if player_value = 18 then
      if dealer_value ∈ [9, 10, 11] then .hit else .stand
    else .hit
  else
    if 17 ≤ player_value then .stand
    else if player_value ≤ 11 then .hit
    else if player_value = 12 then
      if dealer_value ∈ [4, 5, 6] then .stand else .hit
    else if player_value ∈ [13, 14, 15, 16] then
      if dealer_value ∈ [2, 3, 4, 5, 6] then .stand else .hit
    else .stand

/-- The canonical basic-strategy chart exactly as the claim words it,
with "soft" meaning an ace still counted as 11 (the value is the hard
sum plus 10) and the soft total at most 21 — the reference point the
source's `basic_strategy` is compared against. -/
def chart_soft (cards : List Card) : Prop :=
  Hand.has_ace cards ∧
  Hand.get_value cards = Hand.hard_value cards + 10 ∧
  Hand.get_value cards ≤ 21

instance (cards : List Card) : Decidable (chart_soft cards) := by
  unfold chart_soft; infer_instance

/-- The claimed basic-strategy chart (see `chart_soft`). -/
def chart_basic_strategy (player : List Card) (dealer_up : Card) : Action :=
  let v := Hand.get_value player
  let d := dealer_up_value dealer_up
  if chart_soft player then
    if 19 ≤ v then .stand
    else if v = 18 then
      if d = 9 ∨ d = 10 ∨ d = 11 then .hit else .stand
    else .hit
  else
    if 17 ≤ v then .stand
    else if v ≤ 11 then .hit
    else if v = 12 then
      if 4 ≤ d ∧ d ≤ 6 then .stand else .hit
    else if 13 ≤ v ∧ v ≤ 16 then
      if 2 ≤ d ∧ d ≤ 6 then .stand else .hit
    else .stand

/-- `card_counting_strategy`: basic strategy plus the count-based index
plays for hard 12–16.  The true count is recomputed per decision from
the shoe's live remaining-card count `cards_left`
(`game.deck.cards_remaining()`), with the decks-remaining estimate
clamped to a minimum of half a deck. -/
def card_counting_strategy (player : List Card) (dealer_up : Card)
    (counter : CardCounter) (cards_left : Nat) : Action :=
  let player_value := Hand.get_value player
  let dealer_value := dealer_up_value dealer_up
  let true_count : ℚ :=
    counter.get_true_count (some (max ((cards_left : ℚ) / 52) (1 / 2)))
  if strategy_is_soft player then
    if 19 ≤ player_value then .stand
    else if player_value = 18 then
      if dealer_value ∈ [9, 10, 11] then .hit else .stand
    else .hit
  else
    if 17 ≤ player_value then .stand
    else if player_value ≤ 11 then .hit
    else if player_value = 16 then
      if dealer_value ≤ 6 then .stand
      else if dealer_value ∈ [7, 8] then .hit
      else if dealer_value = 9 then
        if 5 ≤ true_count then .stand else .hit
      else
        if 0 ≤ true_count then .stand else .hit
    else if player_value = 15 then
      if dealer_value ∈ [2, 3, 4, 5, 6] then .stand
      else if dealer_value = 10 then
        if 4 ≤ true_count then .stand else .hit
      else .hit
    else if player_value = 14 then
      if dealer_value ∈ [2, 3, 4, 5, 6] then .stand else .hit
    else if player_value = 13 then
      if dealer_value = 2 then
        if true_count ≤ -1 then .hit else .stand
      else if dealer_value = 3 then
        if true_count ≤ -2 then .hit else .stand
      else if dealer_value ∈ [4, 5, 6] then .stand
      else .hit
    else if player_value = 12 then
      if dealer_value = 4 then
        if true_count ≤ 0 then .hit else .stand
      else if dealer_value = 5 then
        if true_count ≤ -5 then .hit else .stand
      else if dealer_value = 6 then
        if true_count ≤ -1 then .hit else .stand
      else if dealer_value = 3 then
        if 2 ≤ true_count then .stand else .hit
      else if dealer_value = 2 then
        if 3 ≤ true_count then .stand else .hit
      else .hit
    else .stand

/-- `BlackjackGame` state: the shared shoe, the optional shared counter,
and the two hands. -/
structure BlackjackGame where
  deck : Deck
  counter : Option CardCounter
  player_hand : List Card
  dealer_hand : List Card
deriving DecidableEq

/-- `self.deck.deal(self.counter)` (`counted = true`) or
`self.deck.deal(None)` (`counted = false`): pop a card, feeding it to
the counter when one is attached and requested. -/
def BlackjackGame.dealCard (g : BlackjackGame) (counted : Bool) :
    Option (Card × BlackjackGame) :=
  match g.deck.deal with
  | none => none
  | some (c, d') =>
      let counter' := if counted then g.counter.map (fun ct => ct.update c) else g.counter
      some (c, { g with deck := d', counter := counter' })

/-- `BlackjackGame.deal_initial_cards`: player card (counted), dealer
up-card (counted), player card (counted), dealer hole card (dealt with
`None` — NOT counted). -/
def deal_initial_cards (g : BlackjackGame) : Option BlackjackGame :=
  match g.dealCard true with
  | none => none
  | some (c1, ga) =>
    match { ga with player_hand := ga.player_hand ++ [c1] }.dealCard true with
    | none => none
    | some (c2, gb) =>
      match { gb with dealer_hand := gb.dealer_hand ++ [c2] }.dealCard true with
      | none => none
      | some (c3, gc) =>
        match { gc with player_hand := gc.player_hand ++ [c3] }.dealCard false with
        | none => none
        | some (c4, gd) =>
          some { gd with dealer_hand := gd.dealer_hand ++ [c4] }

/-- `show_hands(hide_dealer_card=False)`: when a counter is attached and
the dealer holds at least two cards, feed the hole card (index 1) to the
counter — deduplication makes a second reveal a no-op. -/
def revealHole (g : BlackjackGame) : BlackjackGame :=
  match g.counter, g.dealer_hand.get? 1 with
  | some ct, some hole => { g with counter := some (ct.update hole) }
  | _, _ => g

/-- `BlackjackGame.player_turn`: ask the strategy, deal a counted card
on Hit, stop on a bust (returning `false`) or on Stand (returning
`true`).  The loop is fueled by the deck size: every iteration that
continues consumes a card, so with fuel `deck.cards.length` running out
of fuel coincides with the Python code's error on popping an empty
deck (`none`). -/
def player_turn (f : BlackjackGame → Action) :
    Nat → BlackjackGame → Option (Bool × BlackjackGame)
  | 0, g =>
    match f g with
    | .stand => some (true, g)
    | .hit =>
      match g.dealCard true with
      | none => none
      | some (c, ga) =>
        let gb := { ga with player_hand := ga.player_hand ++ [c] }
        if Hand.is_bust gb.player_hand then some (false, gb) else none
  | fuel + 1, g =>
    match f g with
    | .stand => some (true, g)
    | .hit =>
      match g.dealCard true with
      | none => none
      | some (c, ga) =>
        let gb := { ga with player_hand := ga.player_hand ++ [c] }
        if Hand.is_bust gb.player_hand then some (false, gb)
        else player_turn f fuel gb

/-- The dealer's draw loop: hit (counted) while the dealer hand is below
17, fueled like `player_turn`. -/
def dealer_loop : Nat → BlackjackGame → Option BlackjackGame
  | 0, g => if Hand.get_value g.dealer_hand < 17 then none else some g
  | fuel + 1, g =>
    if Hand.get_value g.dealer_hand < 17 then
      match g.dealCard true with
      | none => none
      | some (c, ga) => dealer_loop fuel { ga with dealer_hand := ga.dealer_hand ++ [c] }
    else some g

/-- The terminal states of the round state machine. -/
inductive Outcome where
  | natural | playerBust | dealerBust | showdown
deriving DecidableEq, Repr

/-- `BlackjackGame.play`: deal the initial cards; on a natural
blackjack, reveal (counting the hole card) and resolve; otherwise run
the player turn — a player bust ends the round at once, skipping every
reveal — then reveal the hole card, run the dealer loop, and resolve
dealer-bust or showdown (the final `show_hands(False)` reveal is a
deduplicated no-op by then). -/
def play (f : BlackjackGame → Action) (g0 : BlackjackGame) :
    Option (Outcome × BlackjackGame) :=
  match deal_initial_cards g0 with
  | none => none
  | some g =>
    if Hand.is_blackjack g.player_hand ∨ Hand.is_blackjack g.dealer_hand then
      some (.natural, revealHole g)
    else
      match player_turn f g.deck.cards.length g with
      | none => none
      | some (false, ga) => some (.playerBust, ga)
      | some (true, ga) =>
        let gb := revealHole ga
        match dealer_loop gb.deck.cards.length gb with
        | none => none
        | some gc =>
          if Hand.is_bust gc.dealer_hand then some (.dealerBust, gc)
          else some (.showdown, revealHole gc)

end Blackjack

namespace Blackjack

/-- Each card's nominal value is its all-aces-one value plus 10 if it is
an ace. -/
theorem Card.value_eq_hardValue (c : Card) :
    c.value = c.hardValue + (if c.rank = Rank.rA then 10 else 0) := by
  cases h : c.rank <;> simp [Card.value, Card.hardValue, h]

theorem Hand.nominalSum_cons (c : Card) (cs : List Card) :
    Hand.nominalSum (c :: cs) = c.value + Hand.nominalSum cs := by
  simp [Hand.nominalSum]

theorem Hand.hard_value_cons (c : Card) (cs : List Card) :
    Hand.hard_value (c :: cs) = c.hardValue + Hand.hard_value cs := by
  simp [Hand.hard_value]

theorem Hand.aceCount_cons (c : Card) (cs : List Card) :
    Hand.aceCount (c :: cs) =
      (if c.rank = Rank.rA then 1 else 0) + Hand.aceCount cs := by
  by_cases h : c.rank = Rank.rA <;>
    simp [Hand.aceCount, List.filter_cons, h] <;> omega

/-- The nominal (ace-as-11) sum is the hard sum plus 10 per ace. -/
theorem Hand.nominalSum_eq (cards : List Card) :
    nominalSum cards = hard_value cards + 10 * aceCount cards := by
  induction cards with
  | nil => simp [nominalSum, hard_value, aceCount]
  | cons c cs ih =>
      rw [Hand.nominalSum_cons, Hand.hard_value_cons, Hand.aceCount_cons,
        Card.value_eq_hardValue, ih]
      by_cases h : c.rank = Rank.rA <;> simp [h] <;> ring

/-- Every card's all-aces-one value is at least 1, so the hard sum
dominates the ace count. -/
theorem Hand.aceCount_le_hard_value (cards : List Card) :
    aceCount cards ≤ hard_value cards := by
  induction cards with
  | nil => simp [aceCount, hard_value]
  | cons c cs ih =>
      have h1 : 1 ≤ c.hardValue := by cases h : c.rank <;> simp [Card.hardValue, h]
      rw [Hand.hard_value_cons, Hand.aceCount_cons]
      by_cases h : c.rank = Rank.rA <;> simp [h] <;> omega

/-- Master lemma for the ace-reduction loop: starting from the hard sum
`m` plus 10 per ace, the loop lands on `m` itself when even `m` busts,
and otherwise on the largest value of the form `m + 10*j` (with `j ≤ a`
aces still counted as 11) that does not exceed 21. -/
theorem Hand.reduceAces_spec (a : Nat) : ∀ m : Nat,
    (21 < m → reduceAces (m + 10 * a) a = m) ∧
    (m ≤ 21 →
      reduceAces (m + 10 * a) a ≤ 21 ∧
      (∃ j, j ≤ a ∧ reduceAces (m + 10 * a) a = m + 10 * j ∧
        ∀ k, k ≤ a → m + 10 * k ≤ 21 → m + 10 * k ≤ m + 10 * j)) := by
  induction a with
  | zero =>
      intro m
      refine ⟨fun _ => by simp [reduceAces], fun hm => ?_⟩
      refine ⟨by simpa [reduceAces] using hm, 0, le_refl 0, by simp [reduceAces], ?_⟩
      intro k hk _; omega
  | succ a ih =>
      intro m
      constructor
      · intro hm
        have hgt : 21 < m + 10 * (a + 1) := by omega
        have hsub : m + 10 * (a + 1) - 10 = m + 10 * a := by omega
        have := (ih m).1 hm
        simp only [reduceAces, if_pos hgt, hsub]
        exact this
      · intro hm
        by_cases hv : 21 < m + 10 * (a + 1)
        · have hsub : m + 10 * (a + 1) - 10 = m + 10 * a := by omega
          have hrec : reduceAces (m + 10 * (a + 1)) (a + 1) = reduceAces (m + 10 * a) a := by
            simp only [reduceAces, if_pos hv, hsub]
          obtain ⟨hle, j, hj, hval, hmax⟩ := (ih m).2 hm
          rw [hrec]
          refine ⟨hle, j, Nat.le_succ_of_le hj, hval, ?_⟩
          intro k hk hk21
          rcases Nat.lt_or_ge k (a + 1) with h | h
          · exact hmax k (by omega) hk21
          · have : k = a + 1 := by omega
            omega
        · have hrec : reduceAces (m + 10 * (a + 1)) (a + 1) = m + 10 * (a + 1) := by
            simp only [reduceAces, if_neg hv]
          rw [hrec]
          refine ⟨by omega, a + 1, le_refl _, rfl, ?_⟩
          intro k hk _; omega

/-- C1: `Hand.get_value` returns the largest total ≤ 21 obtainable by
counting each ace as 1 or 11 whenever some such total exists (the
obtainable totals are `hard_value + 10*j` for `j ≤ aceCount` aces kept
at 11), and otherwise returns the minimal achievable total — all aces
counted as 1 — which then exceeds 21. -/
theorem hand_get_value_optimal (cards : List Card) :
    ((∃ j, j ≤ Hand.aceCount cards ∧ Hand.hard_value cards + 10 * j ≤ 21) →
      Hand.get_value cards ≤ 21 ∧
      (∃ j, j ≤ Hand.aceCount cards ∧
        Hand.get_value cards = Hand.hard_value cards + 10 * j) ∧
      (∀ k, k ≤ Hand.aceCount cards →
        Hand.hard_value cards + 10 * k ≤ 21 →
        Hand.hard_value cards + 10 * k ≤ Hand.get_value cards)) ∧
    (21 < Hand.hard_value cards →
      Hand.get_value cards = Hand.hard_value cards ∧
      21 < Hand.get_value cards) := by
  have hval : Hand.get_value cards =
      Hand.reduceAces (Hand.hard_value cards + 10 * Hand.aceCount cards)
        (Hand.aceCount cards) := by
    rw [Hand.get_value, Hand.nominalSum_eq]
  constructor
  · rintro ⟨j, hj, hj21⟩
    have hm : Hand.hard_value cards ≤ 21 := by omega
    obtain ⟨hle, j', hj', hval', hmax⟩ :=
      (Hand.reduceAces_spec (Hand.aceCount cards) (Hand.hard_value cards)).2 hm
    rw [hval]
    exact ⟨hle, ⟨j', hj', hval'⟩, fun k hk hk21 => hval' ▸ hmax k hk hk21⟩
  · intro hm
    have := (Hand.reduceAces_spec (Hand.aceCount cards) (Hand.hard_value cards)).1 hm
    rw [hval, this]
    exact ⟨rfl, hm⟩

/-- C2 counterexample: a supplied `decks_remaining` of 0.3 is NOT
replaced by 0.5 — `get_true_count` only clamps non-positive values, so a
counter with running count 1 returns 1/0.3 = 10/3, not 1/0.5 = 2. -/
theorem true_count_no_half_clamp :
    CardCounter.get_true_count ⟨1, 0, ∅⟩ (some (3 / 10)) = 10 / 3 ∧
    (10 / 3 : ℚ) ≠ (1 : ℚ) / (1 / 2) := by
  constructor <;> norm_num [CardCounter.get_true_count]

/-- C2 (amended): a supplied `decks_remaining` is replaced by 0.5 only
when it is ≤ 0; any positive supplied value — including values in
(0, 0.5) — is used as-is as the divisor.  When no argument is supplied
the estimate `max((52 − cards_observed)/52, 0.5)` (itself at least 0.5)
is used.  The result is `running_count` divided by the resulting
estimate, not truncated. -/
theorem get_true_count_spec (st : CardCounter) (x : ℚ) (hx : 0 < x) :
    st.get_true_count (some x) = (st.running_count : ℚ) / x ∧
    (∀ y : ℚ, y ≤ 0 → st.get_true_count (some y) = (st.running_count : ℚ) / (1 / 2)) ∧
    st.get_true_count none =
      (st.running_count : ℚ) / max ((52 - (st.cards_seen : ℚ)) / 52) (1 / 2) ∧
    (1 / 2 : ℚ) ≤ max ((52 - (st.cards_seen : ℚ)) / 52) (1 / 2) := by
  refine ⟨?_, ?_, ?_, le_max_right _ _⟩
  · simp only [CardCounter.get_true_count, if_neg (not_le.mpr hx)]
  · intro y hy
    simp only [CardCounter.get_true_count, if_pos hy]
  · have hpos : ¬ (max ((52 - (st.cards_seen : ℚ)) / 52) (1 / 2) ≤ 0) := by
      refine not_le.mpr (lt_of_lt_of_le ?_ (le_max_right _ _)); norm_num
    simp only [CardCounter.get_true_count, if_neg hpos]

/-- C2 witness: with running count 1 and supplied `decks_remaining`
0.3 ∈ (0, 0.5), the true count is 1/0.3, not 1/0.5. -/
theorem get_true_count_spec_witness :
    CardCounter.get_true_count ⟨1, 0, ∅⟩ (some (3 / 10)) =
      (((⟨1, 0, ∅⟩ : CardCounter).running_count : ℚ)) / (3 / 10) :=
  (get_true_count_spec ⟨1, 0, ∅⟩ (3 / 10) (by norm_num)).1

/-- C4: `CardCounter.update` is idempotent per card identity — a second
update with a card of the same identity changes nothing — and a first
update of an unobserved identity inserts the identity, bumps
`cards_seen` by one, and moves `running_count` by +1 for ranks 2–6, −1
for 10/J/Q/K/A, 0 for 7–9. -/
theorem counter_update_idempotent (st : CardCounter) (c c' : Card)
    (hid : c'.id = c.id) :
    (st.update c).update c' = st.update c ∧
    (c.id ∉ st.seen_cards →
      (st.update c).seen_cards = insert c.id st.seen_cards ∧
      (st.update c).cards_seen = st.cards_seen + 1 ∧
      (st.update c).running_count = st.running_count +
        (if c.rank ∈ [Rank.r2, .r3, .r4, .r5, .r6] then 1
         else if c.rank ∈ [Rank.r10, .rJ, .rQ, .rK, .rA] then -1 else 0)) := by
  by_cases h : c.id ∈ st.seen_cards
  · refine ⟨?_, fun hn => absurd h hn⟩
    simp only [CardCounter.update, if_pos h, hid, if_pos h]
  · constructor
    · simp only [CardCounter.update, if_neg h, hid]
      simp
    · intro _
      simp [CardCounter.update, if_neg h, hiloValue]

/-- C4 witness: observing the five of spades (id 0) once from a fresh
counter takes effect; observing it a second time changes nothing. -/
theorem counter_update_idempotent_witness :
    ((CardCounter.init.update ⟨0, .spades, .r5⟩).update ⟨0, .spades, .r5⟩ =
      CardCounter.init.update ⟨0, .spades, .r5⟩) ∧
    ((0 : Nat) ∉ CardCounter.init.seen_cards →
      (CardCounter.init.update ⟨0, .spades, .r5⟩).seen_cards =
        insert 0 CardCounter.init.seen_cards ∧
      (CardCounter.init.update ⟨0, .spades, .r5⟩).cards_seen =
        CardCounter.init.cards_seen + 1 ∧
      (CardCounter.init.update ⟨0, .spades, .r5⟩).running_count =
        CardCounter.init.running_count +
          (if Rank.r5 ∈ [Rank.r2, .r3, .r4, .r5, .r6] then 1
           else if Rank.r5 ∈ [Rank.r10, .rJ, .rQ, .rK, .rA] then -1 else 0)) :=
  counter_update_idempotent CardCounter.init ⟨0, .spades, .r5⟩ ⟨0, .spades, .r5⟩ rfl

/-- Feeding a list of cards with pairwise-distinct, previously unseen
identities moves the running count by the sum of the cards' Hi-Lo
tags. -/
theorem observeAll_fresh (l : List Card) : ∀ st : CardCounter,
    (l.map Card.id).Nodup → (∀ c ∈ l, c.id ∉ st.seen_cards) →
    (st.observeAll l).running_count =
      st.running_count + (l.map (fun c => hiloValue c.rank)).sum := by
  induction l with
  | nil => intro st _ _; simp [CardCounter.observeAll]
  | cons c cs ih =>
      intro st hnd hfresh
      have hc : c.id ∉ st.seen_cards := hfresh c (List.mem_cons_self c cs)
      have hstep : st.update c =
          { running_count := st.running_count + hiloValue c.rank
            cards_seen := st.cards_seen + 1
            seen_cards := insert c.id st.seen_cards } := by
        simp only [CardCounter.update, if_neg hc]
      obtain ⟨hne, hnd'⟩ : (∀ x ∈ cs, ¬ x.id = c.id) ∧ (cs.map Card.id).Nodup := by
        simpa using hnd
      have hfresh' : ∀ c' ∈ cs, c'.id ∉ (st.update c).seen_cards := by
        intro c' hc'
        rw [hstep]
        simp only [Finset.mem_insert, not_or]
        exact ⟨hne c' hc', hfresh c' (List.mem_cons_of_mem c hc')⟩
      have : (st.observeAll (c :: cs)) = ((st.update c).observeAll cs) := rfl
      rw [this, ih (st.update c) hnd' hfresh', hstep]
      simp [add_assoc]

/-- The identities of a freshly built shoe are pairwise distinct. -/
theorem shoeCards_id_nodup (n : Nat) :
    ((shoeCards n).map Card.id).Nodup := by
  rw [shoeCards, List.map_map]
  have h : (Card.id ∘ fun p : Nat × (Suit × Rank) =>
      (⟨p.1, p.2.1, p.2.2⟩ : Card)) = Prod.fst := rfl
  rw [h]
  exact List.nodup_enum_map_fst _

/-- The Hi-Lo tags of a single deck's 52 suit×rank combinations sum to
zero: 20 low, 20 high and 12 neutral cards. -/
theorem deckPairs_hilo_sum (n : Nat) :
    ((deckPairs n).map (fun p => hiloValue p.2)).sum = 0 := by
  induction n with
  | zero => simp [deckPairs]
  | succ k ih =>
      have hsplit : deckPairs (k + 1) = deckPairs k ++
          (allSuits.flatMap fun s => allRanks.map fun r => (s, r)) := by
        simp [deckPairs, List.range_succ]
      rw [hsplit, List.map_append, List.sum_append, ih]
      decide

/-- The Hi-Lo tags of a freshly built shoe sum to zero. -/
theorem shoeCards_hilo_sum (n : Nat) :
    ((shoeCards n).map (fun c => hiloValue c.rank)).sum = 0 := by
  have h : (shoeCards n).map (fun c => hiloValue c.rank) =
      (deckPairs n).map (fun p => hiloValue p.2) := by
    rw [shoeCards, List.map_map]
    have e : ((fun c : Card => hiloValue c.rank) ∘ fun p : Nat × (Suit × Rank) =>
        (⟨p.1, p.2.1, p.2.2⟩ : Card)) = (fun p : Suit × Rank => hiloValue p.2) ∘ Prod.snd :=
      rfl
    rw [e, ← List.map_map, List.enum_map_snd]
  rw [h]
  exact deckPairs_hilo_sum n

/-- C3: a freshly-reset counter that observes every card of a fully
built `num_decks`-deck shoe exactly once — in any order, i.e. along any
permutation produced by the shuffle — ends with running count exactly
0. -/
theorem full_shoe_balance (n : Nat) (hn : 1 ≤ n) (l : List Card)
    (hp : l.Perm (shoeCards n)) :
    (CardCounter.init.observeAll l).running_count = 0 := by
  have hnd : (l.map Card.id).Nodup :=
    ((hp.map Card.id).nodup_iff).mpr (shoeCards_id_nodup n)
  have hsum : (l.map (fun c => hiloValue c.rank)).sum = 0 := by
    rw [(hp.map (fun c => hiloValue c.rank)).sum_eq]
    exact shoeCards_hilo_sum n
  have := observeAll_fresh l CardCounter.init hnd
    (by intro c _; simp [CardCounter.init])
  rw [this, hsum]
  simp [CardCounter.init]

/-- C3 witness: a single-deck shoe, observed in build order, balances to
running count 0. -/
theorem full_shoe_balance_witness :
    (CardCounter.init.observeAll (shoeCards 1)).running_count = 0 :=
  full_shoe_balance 1 (by decide) (shoeCards 1) (List.Perm.refl _)

/-- C1 witness: the hand A,A,9 evaluates to 21 (one ace kept at 11), the
maximal obtainable total not exceeding 21. -/
theorem hand_get_value_optimal_witness :
    Hand.get_value [⟨0, .spades, .rA⟩, ⟨1, .hearts, .rA⟩, ⟨2, .clubs, .r9⟩] ≤ 21 ∧
    (∃ j, j ≤ Hand.aceCount [⟨0, .spades, .rA⟩, ⟨1, .hearts, .rA⟩, ⟨2, .clubs, .r9⟩] ∧
      Hand.get_value [⟨0, .spades, .rA⟩, ⟨1, .hearts, .rA⟩, ⟨2, .clubs, .r9⟩] =
        Hand.hard_value [⟨0, .spades, .rA⟩, ⟨1, .hearts, .rA⟩, ⟨2, .clubs, .r9⟩] + 10 * j) ∧
    (∀ k, k ≤ Hand.aceCount [⟨0, .spades, .rA⟩, ⟨1, .hearts, .rA⟩, ⟨2, .clubs, .r9⟩] →
      Hand.hard_value [⟨0, .spades, .rA⟩, ⟨1, .hearts, .rA⟩, ⟨2, .clubs, .r9⟩] + 10 * k ≤ 21 →
      Hand.hard_value [⟨0, .spades, .rA⟩, ⟨1, .hearts, .rA⟩, ⟨2, .clubs, .r9⟩] + 10 * k ≤
        Hand.get_value [⟨0, .spades, .rA⟩, ⟨1, .hearts, .rA⟩, ⟨2, .clubs, .r9⟩]) :=
  (hand_get_value_optimal _).1 ⟨1, by decide, by decide⟩

/-- A natural blackjack (two cards totalling 21) is never a bust. -/
theorem blackjack_not_bust (cards : List Card) (h : Hand.is_blackjack cards) :
    ¬ Hand.is_bust cards := by
  rcases h with ⟨_, h21⟩
  simp [Hand.is_bust, h21]

/-- A two-card hand can never bust (its all-aces-one sum is at most 20),
which is why a completed round never pairs a natural blackjack on one
side with a bust on the other: a natural ends the round while both hands
still hold two cards. -/
theorem two_card_hand_not_bust (c1 c2 : Card) : ¬ Hand.is_bust [c1, c2] := by
  have h1 : c1.hardValue ≤ 10 := by cases h : c1.rank <;> simp [Card.hardValue, h]
  have h2 : c2.hardValue ≤ 10 := by cases h : c2.rank <;> simp [Card.hardValue, h]
  have hhard : Hand.hard_value [c1, c2] ≤ 20 := by
    simp only [Hand.hard_value, List.map_cons, List.map_nil, List.sum_cons,
      List.sum_nil]
    omega
  have hval : Hand.get_value [c1, c2] =
      Hand.reduceAces (Hand.hard_value [c1, c2] + 10 * Hand.aceCount [c1, c2])
        (Hand.aceCount [c1, c2]) := by
    rw [Hand.get_value, Hand.nominalSum_eq]
  have hle := ((Hand.reduceAces_spec (Hand.aceCount [c1, c2])
    (Hand.hard_value [c1, c2])).2 (by omega)).1
  intro hb
  rw [Hand.is_bust, hval] at hb
  omega

/-- Every branch of `record_result` adds the bet to `total_bet` and
bumps `total_games`. -/
theorem record_result_total_bet (s : GameStats) (r : RoundResult)
    (b : Int) (bj bu : Bool) :
    (s.record_result r b bj bu).total_bet = s.total_bet + b ∧
    (s.record_result r b bj bu).total_games = s.total_games + 1 := by
  cases r <;> dsimp [GameStats.record_result] <;> (try split_ifs) <;> exact ⟨rfl, rfl⟩

/-- Bankroll effect of each `record_result` branch. -/
theorem record_result_bankroll (s : GameStats) (b : Int) (bu : Bool) :
    (s.record_result .win b true bu).bankroll = s.bankroll + (b : ℚ) * (3 / 2) ∧
    (s.record_result .win b false bu).bankroll = s.bankroll + (b : ℚ) ∧
    (s.record_result .loss b false bu).bankroll = s.bankroll - (b : ℚ) ∧
    (s.record_result .loss b true bu).bankroll = s.bankroll - (b : ℚ) ∧
    (s.record_result .push b false bu).bankroll = s.bankroll := by
  dsimp [GameStats.record_result] <;> split_ifs <;> simp

set_option maxHeartbeats 2000000 in
/-- C5: on every final hand pair reachable by a completed round — a
natural blackjack ends the round after two cards on each side, so a
blackjack on one side never coexists with a bust on the other — the
code's classification (busts checked first) coincides with the claim's
precedence (naturals first), and the stats update as claimed: bankroll
moves by `bet × 1.5` on a natural-blackjack win, by `± bet` on an
ordinary win/loss, not at all on a push, while `total_bet` accumulates
the bet in every case. -/
theorem record_game_result_spec (player dealer : List Card) (bet : Int)
    (s : GameStats)
    (h1 : ¬ (Hand.is_blackjack player ∧ Hand.is_bust dealer))
    (h2 : ¬ (Hand.is_blackjack dealer ∧ Hand.is_bust player)) :
    record_game_result player dealer bet s = claimed_record player dealer bet s ∧
    (record_game_result player dealer bet s).total_bet = s.total_bet + bet ∧
    (record_game_result player dealer bet s).bankroll = s.bankroll +
      (if Hand.is_blackjack player ∧ ¬ Hand.is_blackjack dealer then (bet : ℚ) * (3 / 2)
       else if Hand.is_blackjack dealer ∧ ¬ Hand.is_blackjack player then -(bet : ℚ)
       else if Hand.is_bust player then -(bet : ℚ)
       else if Hand.is_bust dealer then (bet : ℚ)
       else if Hand.get_value dealer < Hand.get_value player then (bet : ℚ)
       else if Hand.get_value player < Hand.get_value dealer then -(bet : ℚ)
       else 0) := by
  have hA := blackjack_not_bust player
  have hB := blackjack_not_bust dealer
  refine ⟨?_, ?_, ?_⟩
  · unfold record_game_result claimed_record
    split_ifs <;> tauto
  · unfold record_game_result
    split_ifs <;> exact (record_result_total_bet s _ bet _ _).1
  · unfold record_game_result
    split_ifs <;> first | tauto | (simp [GameStats.record_result] <;> ring)

/-- C5 witness: player 19 (10,9) beats dealer 18 (10,8) for a plain win
at bet 5: bankroll rises by 5 and `total_bet` by 5. -/
theorem record_game_result_spec_witness :
    (record_game_result
        [⟨0, .spades, .r10⟩, ⟨1, .hearts, .r9⟩]
        [⟨2, .clubs, .r10⟩, ⟨3, .diamonds, .r8⟩] 5 ⟨0, 0, 0, 0, 0, 0, 0, 0⟩ =
      claimed_record
        [⟨0, .spades, .r10⟩, ⟨1, .hearts, .r9⟩]
        [⟨2, .clubs, .r10⟩, ⟨3, .diamonds, .r8⟩] 5 ⟨0, 0, 0, 0, 0, 0, 0, 0⟩) ∧
    (record_game_result
        [⟨0, .spades, .r10⟩, ⟨1, .hearts, .r9⟩]
        [⟨2, .clubs, .r10⟩, ⟨3, .diamonds, .r8⟩] 5 ⟨0, 0, 0, 0, 0, 0, 0, 0⟩).total_bet =
      (⟨0, 0, 0, 0, 0, 0, 0, 0⟩ : GameStats).total_bet + 5 ∧
    (record_game_result
        [⟨0, .spades, .r10⟩, ⟨1, .hearts, .r9⟩]
        [⟨2, .clubs, .r10⟩, ⟨3, .diamonds, .r8⟩] 5 ⟨0, 0, 0, 0, 0, 0, 0, 0⟩).bankroll =
      (⟨0, 0, 0, 0, 0, 0, 0, 0⟩ : GameStats).bankroll +
      (if Hand.is_blackjack [⟨0, .spades, .r10⟩, ⟨1, .hearts, .r9⟩] ∧
          ¬ Hand.is_blackjack [⟨2, .clubs, .r10⟩, ⟨3, .diamonds, .r8⟩] then (5 : ℚ) * (3 / 2)
       else if Hand.is_blackjack [⟨2, .clubs, .r10⟩, ⟨3, .diamonds, .r8⟩] ∧
          ¬ Hand.is_blackjack [⟨0, .spades, .r10⟩, ⟨1, .hearts, .r9⟩] then -(5 : ℚ)
       else if Hand.is_bust [⟨0, .spades, .r10⟩, ⟨1, .hearts, .r9⟩] then -(5 : ℚ)
       else if Hand.is_bust [⟨2, .clubs, .r10⟩, ⟨3, .diamonds, .r8⟩] then (5 : ℚ)
       else if Hand.get_value [⟨2, .clubs, .r10⟩, ⟨3, .diamonds, .r8⟩] <
          Hand.get_value [⟨0, .spades, .r10⟩, ⟨1, .hearts, .r9⟩] then (5 : ℚ)
       else if Hand.get_value [⟨0, .spades, .r10⟩, ⟨1, .hearts, .r9⟩] <
          Hand.get_value [⟨2, .clubs, .r10⟩, ⟨3, .diamonds, .r8⟩] then -(5 : ℚ)
       else 0) :=
  record_game_result_spec _ _ 5 _ (by decide) (by decide)

/-- C6: the bet ramp is exactly the claimed step function of the true
count and is non-decreasing. -/
theorem bet_ramp_spec (t u : ℚ) (h : t ≤ u) :
    get_bet_size t ≤ get_bet_size u ∧
    (t < 0 → get_bet_size t = 0) ∧
    (0 ≤ t → t < 1 → get_bet_size t = 1) ∧
    (1 ≤ t → t < 2 → get_bet_size t = 2) ∧
    (2 ≤ t → t < 3 → get_bet_size t = 5) ∧
    (3 ≤ t → t < 4 → get_bet_size t = 10) ∧
    (4 ≤ t → t < 5 → get_bet_size t = 25) ∧
    (5 ≤ t → get_bet_size t = 50) := by
  constructor
  · unfold get_bet_size
    split_ifs <;> first | decide | (exfalso; linarith)
  · refine ⟨?_, ?_, ?_, ?_, ?_, ?_, ?_⟩ <;>
      (intros; unfold get_bet_size; split_ifs <;> first | rfl | (exfalso; linarith))

/-- The hand value is always the hard sum plus 10 for each ace still
counted as 11. -/
theorem get_value_hard_form (cards : List Card) :
    ∃ j, j ≤ Hand.aceCount cards ∧
      Hand.get_value cards = Hand.hard_value cards + 10 * j := by
  have hval : Hand.get_value cards =
      Hand.reduceAces (Hand.hard_value cards + 10 * Hand.aceCount cards)
        (Hand.aceCount cards) := by
    rw [Hand.get_value, Hand.nominalSum_eq]
  rcases le_or_lt (Hand.hard_value cards) 21 with hm | hm
  · obtain ⟨_, j, hj, hv, _⟩ :=
      (Hand.reduceAces_spec (Hand.aceCount cards) (Hand.hard_value cards)).2 hm
    exact ⟨j, hj, hval ▸ hv⟩
  · refine ⟨0, Nat.zero_le _, ?_⟩
    rw [hval, (Hand.reduceAces_spec (Hand.aceCount cards) (Hand.hard_value cards)).1 hm]
    omega

/-- A hand has an ace, but the count of each ace contributes at least
one to the hard sum: if an ace has stayed at 11 and the value still does
not bust, only one can have. -/
theorem strategy_soft_iff_chart_soft (cards : List Card) :
    strategy_is_soft cards ↔ chart_soft cards := by
  have hform := get_value_hard_form cards
  have hdom := Hand.aceCount_le_hard_value cards
  constructor
  · rintro ⟨ha, hne, hle⟩
    obtain ⟨j, hj, hv⟩ := hform
    refine ⟨ha, ?_, hle⟩
    rcases Nat.lt_or_ge j 2 with hj2 | hj2
    · interval_cases j <;> omega
    · omega
  · rintro ⟨ha, heq, hle⟩
    exact ⟨ha, by omega, hle⟩

/-- C8: the source's `basic_strategy` agrees with the canonical chart as
the claim states it, for every player hand and dealer up-card: soft
hands stand at 19+, stand on 18 except against dealer 9/10/A, hit at 17
or below; hard hands stand at 17+, hit at 11 or below, stand on 12 only
against dealer 4–6, and stand on 13–16 exactly against dealer 2–6. -/
theorem basic_strategy_matches_chart (player : List Card) (dealer_up : Card) :
    basic_strategy player dealer_up = chart_basic_strategy player dealer_up := by
  have hiff := strategy_soft_iff_chart_soft player
  simp only [basic_strategy, chart_basic_strategy,
    List.mem_cons, List.not_mem_nil, or_false]
  split_ifs <;> first | rfl | (exfalso; omega) | tauto

/-- C7: with a hard (non-soft) hand, the counting strategy plays the
claimed index deviations against the true count recomputed from the live
remaining-card count with the decks estimate clamped to at least 0.5:
hard 16 vs dealer 9 stands iff the true count is ≥ 5, hard 16 vs dealer
10 or ace stands iff it is ≥ 0, and hard 15 vs dealer 10 stands iff it
is ≥ 4. -/
theorem counting_index_plays (player : List Card) (dealer_up : Card)
    (counter : CardCounter) (cards_left : Nat)
    (hhard : ¬ strategy_is_soft player) :
    (Hand.get_value player = 16 → dealer_up_value dealer_up = 9 →
      (card_counting_strategy player dealer_up counter cards_left = .stand ↔
        5 ≤ counter.get_true_count (some (max ((cards_left : ℚ) / 52) (1 / 2))))) ∧
    (Hand.get_value player = 16 →
      (dealer_up_value dealer_up = 10 ∨ dealer_up_value dealer_up = 11) →
      (card_counting_strategy player dealer_up counter cards_left = .stand ↔
        0 ≤ counter.get_true_count (some (max ((cards_left : ℚ) / 52) (1 / 2))))) ∧
    (Hand.get_value player = 15 → dealer_up_value dealer_up = 10 →
      (card_counting_strategy player dealer_up counter cards_left = .stand ↔
        4 ≤ counter.get_true_count (some (max ((cards_left : ℚ) / 52) (1 / 2))))) := by
  refine ⟨fun h16 d9 => ?_, fun h16 d10 => ?_, fun h15 d10 => ?_⟩
  · simp only [card_counting_strategy, h16, d9, if_neg hhard]
    norm_num
    refine ⟨fun himp => ?_, fun hge hlt => absurd hge (not_le.mpr hlt)⟩
    by_contra hc
    exact absurd (himp (not_le.mp hc)) (by decide)
  · rcases d10 with d10 | d11
    · simp only [card_counting_strategy, h16, d10, if_neg hhard]
      norm_num
      refine ⟨fun himp => ?_, fun hge hlt => absurd hge (not_le.mpr hlt)⟩
      by_contra hc
      exact absurd (himp (not_le.mp hc)) (by decide)
    · simp only [card_counting_strategy, h16, d11, if_neg hhard]
      norm_num
      refine ⟨fun himp => ?_, fun hge hlt => absurd hge (not_le.mpr hlt)⟩
      by_contra hc
      exact absurd (himp (not_le.mp hc)) (by decide)
  · simp only [card_counting_strategy, h15, d10, if_neg hhard]
    norm_num
    refine ⟨fun himp => ?_, fun hge hlt => absurd hge (not_le.mpr hlt)⟩
    by_contra hc
    exact absurd (himp (not_le.mp hc)) (by decide)

/-- C7 witness: hard 16 (10,6) against a dealer 9 with running count 5
and a full 52-card shoe gives a true count of exactly 5, so the strategy
stands. -/
theorem counting_index_plays_witness :
    Hand.get_value [⟨0, .spades, .r10⟩, ⟨1, .hearts, .r6⟩] = 16 ∧
    dealer_up_value ⟨2, .diamonds, .r9⟩ = 9 ∧
    (card_counting_strategy [⟨0, .spades, .r10⟩, ⟨1, .hearts, .r6⟩]
        ⟨2, .diamonds, .r9⟩ ⟨5, 3, ∅⟩ 52 = .stand ↔
      5 ≤ CardCounter.get_true_count ⟨5, 3, ∅⟩ (some (max ((52 : ℚ) / 52) (1 / 2)))) :=
  ⟨by decide, by decide,
    (counting_index_plays [⟨0, .spades, .r10⟩, ⟨1, .hearts, .r6⟩]
      ⟨2, .diamonds, .r9⟩ ⟨5, 3, ∅⟩ 52 (by decide)).1 (by decide) (by decide)⟩

/-- A successful `deal` splits off the last card of the shoe. -/
theorem Deck.deal_decomp (d : Deck) (c : Card) (d' : Deck)
    (h : d.deal = some (c, d')) :
    d.cards = d'.cards ++ [c] ∧ d'.total_cards = d.total_cards ∧
    d'.num_decks = d.num_decks := by
  unfold Deck.deal at h
  cases hl : d.cards.getLast? with
  | none => rw [hl] at h; exact absurd h (by simp)
  | some c0 =>
      rw [hl] at h
      obtain ⟨hc, hd⟩ : c0 = c ∧ { d with cards := d.cards.dropLast } = d' := by
        simpa using h
      obtain ⟨l', hl'⟩ := List.getLast?_eq_some_iff.mp hl
      subst hc hd
      refine ⟨?_, rfl, rfl⟩
      simp [hl', List.dropLast_concat]

/-- C9: shoe penetration satisfies the claimed invariants: it equals
`(total − remaining)/total × 100` at every state (`remaining ≥ 0` holds
by the `Nat` type of the card count), it is exactly 100 when no cards
remain, and a successful `deal` removes one card, preserves
`total_cards` and `remaining ≤ total`, and never decreases penetration.
`penetration` and `needs_shuffle` are pure functions of the deck state,
so they mutate nothing by construction. -/
theorem penetration_spec (d : Deck) (c : Card) (d' : Deck)
    (hinv : d.cards.length ≤ d.total_cards ∧ 0 < d.total_cards) :
    d.penetration =
      ((d.total_cards : ℚ) - (d.cards_remaining : ℚ)) / (d.total_cards : ℚ) * 100 ∧
    (d.cards.length = 0 → d.penetration = 100) ∧
    (d.deal = some (c, d') →
      d.penetration ≤ d'.penetration ∧
      d'.cards.length ≤ d'.total_cards ∧ 0 < d'.total_cards ∧
      d'.total_cards = d.total_cards ∧
      d'.cards.length + 1 = d.cards.length) := by
  have hT : (0 : ℚ) < (d.total_cards : ℚ) := by exact_mod_cast hinv.2
  refine ⟨rfl, ?_, ?_⟩
  · intro h0
    rw [Deck.penetration, h0]
    rw [Nat.cast_zero, sub_zero, div_self (ne_of_gt hT)]
    norm_num
  · intro hdeal
    obtain ⟨hsplit, htot, _⟩ := Deck.deal_decomp d c d' hdeal
    have hlen : d'.cards.length + 1 = d.cards.length := by
      rw [hsplit]; simp
    refine ⟨?_, by omega, by omega, htot, hlen⟩
    rw [Deck.penetration, Deck.penetration, htot]
    apply mul_le_mul_of_nonneg_right _ (by norm_num : (0 : ℚ) ≤ 100)
    apply (div_le_div_iff_of_pos_right hT).mpr
    have : (d'.cards.length : ℚ) + 1 = (d.cards.length : ℚ) := by
      exact_mod_cast hlen
    linarith

/-- C9 witness: a one-card deck with `total_cards = 1` deals its card,
moving penetration from 0 to 100. -/
theorem penetration_spec_witness :
    (⟨[⟨0, .spades, .r2⟩], 1, 1⟩ : Deck).penetration =
      (((⟨[⟨0, .spades, .r2⟩], 1, 1⟩ : Deck).total_cards : ℚ) -
        ((⟨[⟨0, .spades, .r2⟩], 1, 1⟩ : Deck).cards_remaining : ℚ)) /
        ((⟨[⟨0, .spades, .r2⟩], 1, 1⟩ : Deck).total_cards : ℚ) * 100 ∧
    ((⟨[⟨0, .spades, .r2⟩], 1, 1⟩ : Deck).cards.length = 0 →
      (⟨[⟨0, .spades, .r2⟩], 1, 1⟩ : Deck).penetration = 100) ∧
    ((⟨[⟨0, .spades, .r2⟩], 1, 1⟩ : Deck).deal =
        some (⟨0, .spades, .r2⟩, ⟨[], 1, 1⟩) →
      (⟨[⟨0, .spades, .r2⟩], 1, 1⟩ : Deck).penetration ≤
        (⟨[], 1, 1⟩ : Deck).penetration ∧
      (⟨[], 1, 1⟩ : Deck).cards.length ≤ (⟨[], 1, 1⟩ : Deck).total_cards ∧
      0 < (⟨[], 1, 1⟩ : Deck).total_cards ∧
      (⟨[], 1, 1⟩ : Deck).total_cards = (⟨[⟨0, .spades, .r2⟩], 1, 1⟩ : Deck).total_cards ∧
      (⟨[], 1, 1⟩ : Deck).cards.length + 1 =
        (⟨[⟨0, .spades, .r2⟩], 1, 1⟩ : Deck).cards.length) :=
  penetration_spec ⟨[⟨0, .spades, .r2⟩], 1, 1⟩ ⟨0, .spades, .r2⟩ ⟨[], 1, 1⟩
    ⟨by decide, by decide⟩

theorem CardCounter.observeAll_nil (st : CardCounter) : st.observeAll [] = st := rfl

theorem CardCounter.observeAll_cons (st : CardCounter) (c : Card) (l : List Card) :
    st.observeAll (c :: l) = (st.update c).observeAll l := rfl

theorem CardCounter.observeAll_append (st : CardCounter) (l1 l2 : List Card) :
    st.observeAll (l1 ++ l2) = (st.observeAll l1).observeAll l2 :=
  List.foldl_append _ _ _ _

/-- `update` never records an identity other than the updated card's. -/
theorem CardCounter.update_seen_not_mem (st : CardCounter) (c : Card) (x : Nat)
    (hx : x ∉ st.seen_cards) (hne : c.id ≠ x) :
    x ∉ (st.update c).seen_cards := by
  unfold CardCounter.update
  split_ifs with h
  · exact hx
  · simp only [Finset.mem_insert, not_or]
    exact ⟨fun he => hne he.symm, hx⟩

/-- An identity that is unseen and does not occur in the fed list stays
unseen. -/
theorem CardCounter.observeAll_seen_not_mem (l : List Card) :
    ∀ (st : CardCounter) (x : Nat), x ∉ st.seen_cards →
    (∀ c ∈ l, c.id ≠ x) → x ∉ (st.observeAll l).seen_cards := by
  induction l with
  | nil => intro st x hx _; exact hx
  | cons c cs ih =>
      intro st x hx hne
      rw [CardCounter.observeAll_cons]
      exact ih (st.update c) x
        (CardCounter.update_seen_not_mem st c x hx (hne c (List.mem_cons_self c cs)))
        (fun c' hc' => hne c' (List.mem_cons_of_mem c hc'))

/-- A successful counted/uncounted deal through the game wrapper: the
popped card was the shoe's last card, the hands are untouched, and the
counter is updated exactly when requested and attached. -/
theorem dealCard_spec (g : BlackjackGame) (counted : Bool) (c : Card)
    (g1 : BlackjackGame) (h : g.dealCard counted = some (c, g1)) :
    g.deck.cards = g1.deck.cards ++ [c] ∧
    g1.player_hand = g.player_hand ∧
    g1.dealer_hand = g.dealer_hand ∧
    g1.counter = (if counted then g.counter.map (fun ct => ct.update c)
                  else g.counter) := by
  unfold BlackjackGame.dealCard at h
  cases hd : g.deck.deal with
  | none => rw [hd] at h; exact absurd h (by simp)
  | some cd =>
      obtain ⟨c0, d'⟩ := cd
      rw [hd] at h
      obtain ⟨hc, hg⟩ : c0 = c ∧ _ = g1 := by simpa using h
      subst hc
      obtain ⟨hsplit, -, -⟩ := Deck.deal_decomp _ _ _ hd
      rw [← hg]
      exact ⟨hsplit, rfl, rfl, rfl⟩

/-- Trace of a finished player turn: the final state extends the player
hand by the drawn cards, leaves the dealer hand alone, feeds exactly the
drawn cards to the counter in draw order, and draws only from the
shoe. -/
theorem player_turn_trace (f : BlackjackGame → Action) :
    ∀ (fuel : Nat) (g g' : BlackjackGame) (b : Bool),
      player_turn f fuel g = some (b, g') →
      ∃ drawn : List Card,
        g'.player_hand = g.player_hand ++ drawn ∧
        g'.dealer_hand = g.dealer_hand ∧
        (∀ ct, g.counter = some ct → g'.counter = some (ct.observeAll drawn)) ∧
        (∀ x ∈ drawn, x ∈ g.deck.cards) ∧
        g'.deck.cards.Sublist g.deck.cards := by
  intro fuel
  induction fuel with
  | zero =>
      intro g g' b h
      cases hf : f g with
      | stand =>
          simp only [player_turn, hf] at h
          obtain ⟨-, rfl⟩ : b = true ∧ g = g' := by simpa using h
          exact ⟨[], by simp, rfl, fun ct hct => by simpa [CardCounter.observeAll_nil], by
            simp, List.Sublist.refl _⟩
      | hit =>
          simp only [player_turn, hf] at h
          cases hdc : g.dealCard true with
          | none => rw [hdc] at h; exact absurd h (by simp)
          | some pca =>
              obtain ⟨c, ga⟩ := pca
              rw [hdc] at h
              simp only at h
              obtain ⟨e1, e2, e3, e4⟩ := dealCard_spec g true c ga hdc
              split_ifs at h with hbust
              · obtain ⟨-, rfl⟩ : b = false ∧ _ = g' := by simpa using h
                refine ⟨[c], by simp [e2], by simp [e3], ?_, by simp [e1], ?_⟩
                · intro ct hct
                  simp only [e4, hct, if_true]
                  rfl
                · simp only
                  rw [e1]
                  exact List.sublist_append_left _ _
  | succ fuel ih =>
      intro g g' b h
      cases hf : f g with
      | stand =>
          simp only [player_turn, hf] at h
          obtain ⟨-, rfl⟩ : b = true ∧ g = g' := by simpa using h
          exact ⟨[], by simp, rfl, fun ct hct => by simpa [CardCounter.observeAll_nil], by
            simp, List.Sublist.refl _⟩
      | hit =>
          simp only [player_turn, hf] at h
          cases hdc : g.dealCard true with
          | none => rw [hdc] at h; exact absurd h (by simp)
          | some pca =>
              obtain ⟨c, ga⟩ := pca
              rw [hdc] at h
              simp only at h
              obtain ⟨e1, e2, e3, e4⟩ := dealCard_spec g true c ga hdc
              split_ifs at h with hbust
              · obtain ⟨-, rfl⟩ : b = false ∧ _ = g' := by simpa using h
                refine ⟨[c], by simp [e2], by simp [e3], ?_, by simp [e1], ?_⟩
                · intro ct hct
                  simp only [e4, hct, if_true]
                  rfl
                · simp only
                  rw [e1]
                  exact List.sublist_append_left _ _
              · obtain ⟨drawn, t1, t2, t3, t4, t5⟩ := ih _ g' b h
                refine ⟨c :: drawn, ?_, ?_, ?_, ?_, ?_⟩
                · rw [t1]; simp [e2]
                · rw [t2]; simp [e3]
                · intro ct hct
                  have : ({ ga with player_hand := ga.player_hand ++ [c] } :
                      BlackjackGame).counter = some (ct.update c) := by
                    simp only [e4, hct, if_true]
                    rfl
                  rw [CardCounter.observeAll_cons]
                  exact t3 (ct.update c) this
                · intro x hx
                  rcases List.mem_cons.mp hx with rfl | hx'
                  · rw [e1]; simp
                  · have : x ∈ ga.deck.cards := by simpa using t4 x hx'
                    rw [e1]
                    exact List.mem_append_left _ this
                · refine t5.trans ?_
                  simp only
                  rw [e1]
                  exact List.sublist_append_left _ _

/-- Analysis of a successful initial deal from a fresh round: the player
holds the first and third dealt cards, the dealer the up-card and the
hole card, the counter has been fed exactly the three visible cards, and
the hole card's identity — like that of every card still in the shoe —
is not among the observed identities. -/
theorem deal_initial_spec (g0 g : BlackjackGame) (c0 : CardCounter)
    (hc : g0.counter = some c0) (hp : g0.player_hand = [])
    (hd : g0.dealer_hand = [])
    (hnd : (g0.deck.cards.map Card.id).Nodup)
    (hfresh : ∀ x ∈ g0.deck.cards, x.id ∉ c0.seen_cards)
    (h : deal_initial_cards g0 = some g) :
    ∃ p1 up p2 hole,
      g.player_hand = [p1, p2] ∧
      g.dealer_hand = [up, hole] ∧
      g.counter = some (c0.observeAll [p1, up, p2]) ∧
      hole.id ∉ (c0.observeAll [p1, up, p2]).seen_cards ∧
      (∀ x ∈ g.deck.cards,
        x.id ∉ (c0.observeAll [p1, up, p2]).seen_cards ∧ x.id ≠ hole.id) := by
  unfold deal_initial_cards at h
  cases h1 : g0.dealCard true with
  | none => rw [h1] at h; exact absurd h (by simp)
  | some pc1 =>
    obtain ⟨c1, ga⟩ := pc1
    rw [h1] at h
    simp only at h
    cases h2 : ({ ga with player_hand := ga.player_hand ++ [c1] } :
        BlackjackGame).dealCard true with
    | none => rw [h2] at h; exact absurd h (by simp)
    | some pc2 =>
      obtain ⟨c2, gb⟩ := pc2
      rw [h2] at h
      simp only at h
      cases h3 : ({ gb with dealer_hand := gb.dealer_hand ++ [c2] } :
          BlackjackGame).dealCard true with
      | none => rw [h3] at h; exact absurd h (by simp)
      | some pc3 =>
        obtain ⟨c3, gc⟩ := pc3
        rw [h3] at h
        simp only at h
        cases h4 : ({ gc with player_hand := gc.player_hand ++ [c3] } :
            BlackjackGame).dealCard false with
        | none => rw [h4] at h; exact absurd h (by simp)
        | some pc4 =>
          obtain ⟨c4, gd⟩ := pc4
          rw [h4] at h
          simp only at h
          obtain rfl : ({ gd with dealer_hand := gd.dealer_hand ++ [c4] } :
              BlackjackGame) = g := by simpa using h
          obtain ⟨e11, e12, e13, e14⟩ := dealCard_spec _ _ _ _ h1
          obtain ⟨e21, e22, e23, e24⟩ := dealCard_spec _ _ _ _ h2
          obtain ⟨e31, e32, e33, e34⟩ := dealCard_spec _ _ _ _ h3
          obtain ⟨e41, e42, e43, e44⟩ := dealCard_spec _ _ _ _ h4
          simp only at e21 e22 e23 e24 e31 e32 e33 e34 e41 e42 e43 e44
          -- running states
          have hca : ga.counter = some (c0.update c1) := by
            rw [e14, hc]; rfl
          have hcb : gb.counter = some ((c0.update c1).update c2) := by
            rw [e24, hca]; rfl
          have hcc : gc.counter = some (((c0.update c1).update c2).update c3) := by
            rw [e34, hcb]; rfl
          have hcd : gd.counter = some (((c0.update c1).update c2).update c3) := by
            rw [e44, hcc]
            rfl
          have hdeck : g0.deck.cards = gd.deck.cards ++ [c4, c3, c2, c1] := by
            rw [e11, e21, e31, e41]
            simp
          -- identity bookkeeping
          rw [hdeck] at hnd hfresh
          rw [List.map_append, List.nodup_append] at hnd
          obtain ⟨-, hnd4, hdisj⟩ := hnd
          have hid43 : c4.id ≠ c3.id := by
            intro he; simp [he] at hnd4
          have hid42 : c4.id ≠ c2.id := by
            intro he; simp [he] at hnd4
          have hid41 : c4.id ≠ c1.id := by
            intro he; simp [he] at hnd4
          have hmem4 : c4 ∈ gd.deck.cards ++ [c4, c3, c2, c1] := by simp
          have hfresh4 : c4.id ∉ c0.seen_cards := hfresh c4 hmem4
          have hole_not_seen :
              c4.id ∉ (c0.observeAll [c1, c2, c3]).seen_cards := by
            refine CardCounter.observeAll_seen_not_mem _ c0 c4.id hfresh4 ?_
            intro c hcmem
            simp only [List.mem_cons, List.not_mem_nil, or_false] at hcmem
            rcases hcmem with rfl | rfl | rfl
            · exact fun he => hid41 he.symm
            · exact fun he => hid42 he.symm
            · exact fun he => hid43 he.symm
          refine ⟨c1, c2, c3, c4, ?_, ?_, ?_, hole_not_seen, ?_⟩
          · -- player hand
            simp only [e42, e32, e22, e12, hp]
            simp
          · -- dealer hand
            simp only [e43, e33, e23, e13, hd]
            simp
          · -- counter
            simp only [hcd]
            rfl
          · -- remaining shoe cards are unobserved and differ from the hole
            intro x hx
            have hxmem : x ∈ gd.deck.cards := by simpa using hx
            have hxg0 : x ∈ gd.deck.cards ++ [c4, c3, c2, c1] :=
              List.mem_append_left _ hxmem
            have hxfresh : x.id ∉ c0.seen_cards := hfresh x hxg0
            have hxne : ∀ y ∈ ([c4, c3, c2, c1] : List Card), x.id ≠ y.id := by
              intro y hy he
              exact hdisj (List.mem_map_of_mem Card.id hxmem)
                (he ▸ List.mem_map_of_mem Card.id hy)
            constructor
            · refine CardCounter.observeAll_seen_not_mem _ c0 x.id hxfresh ?_
              intro c hcmem
              simp only [List.mem_cons, List.not_mem_nil, or_false] at hcmem
              rcases hcmem with rfl | rfl | rfl <;>
                exact fun he => hxne c (by simp) he.symm
            · exact hxne c4 (by simp)

/-- C10: in every round that ends in the player-bust terminal state, the
dealer's hole card is never submitted to the card counter: the final
counter state is exactly the fresh counter fed the three initially
visible cards (first player card, dealer up-card, second player card)
followed by the player's drawn cards, and the hole card's identity is
absent from the observed set — the hole card is dealt uncounted and is
only fed to the counter at the reveal that player-bust rounds skip. -/
theorem player_bust_skips_hole_count
    (f : BlackjackGame → Action) (g0 gF : BlackjackGame) (c0 : CardCounter)
    (hc : g0.counter = some c0)
    (hp : g0.player_hand = []) (hd : g0.dealer_hand = [])
    (hnd : (g0.deck.cards.map Card.id).Nodup)
    (hfresh : ∀ x ∈ g0.deck.cards, x.id ∉ c0.seen_cards)
    (hplay : play f g0 = some (.playerBust, gF)) :
    ∃ p1 p2 up hole drawn,
      gF.player_hand = p1 :: p2 :: drawn ∧
      gF.dealer_hand = [up, hole] ∧
      gF.counter = some (c0.observeAll (p1 :: up :: p2 :: drawn)) ∧
      hole.id ∉ (c0.observeAll (p1 :: up :: p2 :: drawn)).seen_cards := by
  unfold play at hplay
  cases hdi : deal_initial_cards g0 with
  | none => rw [hdi] at hplay; exact absurd hplay (by simp)
  | some g =>
      rw [hdi] at hplay
      simp only at hplay
      split_ifs at hplay with hbj
      · exact absurd hplay (by simp)
      · cases hpt : player_turn f g.deck.cards.length g with
        | none => rw [hpt] at hplay; exact absurd hplay (by simp)
        | some pr =>
            obtain ⟨b, ga⟩ := pr
            rw [hpt] at hplay
            cases b with
            | true =>
                simp only at hplay
                cases hdl : dealer_loop (revealHole ga).deck.cards.length
                    (revealHole ga) with
                | none => rw [hdl] at hplay; exact absurd hplay (by simp)
                | some gc =>
                    rw [hdl] at hplay
                    simp only at hplay
                    split_ifs at hplay with hdb
                    · exact absurd hplay (by simp)
                    · exact absurd hplay (by simp)
            | false =>
                obtain rfl : ga = gF := by simpa using hplay
                obtain ⟨p1, up, p2, hole, d1, d2, d3, d4, d5⟩ :=
                  deal_initial_spec g0 g c0 hc hp hd hnd hfresh hdi
                obtain ⟨drawn, t1, t2, t3, t4, t5⟩ :=
                  player_turn_trace f _ g ga false hpt
                have hfull : ∀ st : CardCounter,
                    (st.observeAll [p1, up, p2]).observeAll drawn =
                      st.observeAll (p1 :: up :: p2 :: drawn) := by
                  intro st
                  rw [show (p1 :: up :: p2 :: drawn) = [p1, up, p2] ++ drawn from rfl,
                    CardCounter.observeAll_append]
                refine ⟨p1, p2, up, hole, drawn, ?_, ?_, ?_, ?_⟩
                · rw [t1, d1]; rfl
                · rw [t2, d2]
                · rw [t3 (c0.observeAll [p1, up, p2]) d3, hfull]
                · rw [← hfull]
                  refine CardCounter.observeAll_seen_not_mem drawn _ hole.id d4 ?_
                  intro x hx
                  exact (d5 x (t4 x hx)).2

/-- C10 witness: a five-card deck dealt to a player who always hits:
player 10,10 then draws a 5 and busts at 25; the dealer's hole 9 (id 3)
is never observed, while the counter holds exactly the three visible
initial cards plus the drawn 5. -/
theorem player_bust_skips_hole_count_witness :
    ∃ p1 p2 up hole drawn,
      ({ deck := ⟨[], 1, 5⟩,
         counter := some (CardCounter.init.observeAll
           [⟨0, .spades, .r10⟩, ⟨1, .hearts, .r9⟩, ⟨2, .clubs, .r10⟩, ⟨4, .spades, .r5⟩]),
         player_hand := [⟨0, .spades, .r10⟩, ⟨2, .clubs, .r10⟩, ⟨4, .spades, .r5⟩],
         dealer_hand := [⟨1, .hearts, .r9⟩, ⟨3, .diamonds, .r9⟩] } :
          BlackjackGame).player_hand = p1 :: p2 :: drawn ∧
      ({ deck := ⟨[], 1, 5⟩,
         counter := some (CardCounter.init.observeAll
           [⟨0, .spades, .r10⟩, ⟨1, .hearts, .r9⟩, ⟨2, .clubs, .r10⟩, ⟨4, .spades, .r5⟩]),
         player_hand := [⟨0, .spades, .r10⟩, ⟨2, .clubs, .r10⟩, ⟨4, .spades, .r5⟩],
         dealer_hand := [⟨1, .hearts, .r9⟩, ⟨3, .diamonds, .r9⟩] } :
          BlackjackGame).dealer_hand = [up, hole] ∧
      ({ deck := ⟨[], 1, 5⟩,
         counter := some (CardCounter.init.observeAll
           [⟨0, .spades, .r10⟩, ⟨1, .hearts, .r9⟩, ⟨2, .clubs, .r10⟩, ⟨4, .spades, .r5⟩]),
         player_hand := [⟨0, .spades, .r10⟩, ⟨2, .clubs, .r10⟩, ⟨4, .spades, .r5⟩],
         dealer_hand := [⟨1, .hearts, .r9⟩, ⟨3, .diamonds, .r9⟩] } :
          BlackjackGame).counter =
        some (CardCounter.init.observeAll (p1 :: up :: p2 :: drawn)) ∧
      hole.id ∉ (CardCounter.init.observeAll (p1 :: up :: p2 :: drawn)).seen_cards :=
  player_bust_skips_hole_count (fun _ => Action.hit)
    { deck := ⟨[⟨4, .spades, .r5⟩, ⟨3, .diamonds, .r9⟩, ⟨2, .clubs, .r10⟩,
        ⟨1, .hearts, .r9⟩, ⟨0, .spades, .r10⟩], 1, 5⟩,
      counter := some CardCounter.init, player_hand := [], dealer_hand := [] }
    { deck := ⟨[], 1, 5⟩,
      counter := some (CardCounter.init.observeAll
        [⟨0, .spades, .r10⟩, ⟨1, .hearts, .r9⟩, ⟨2, .clubs, .r10⟩, ⟨4, .spades, .r5⟩]),
      player_hand := [⟨0, .spades, .r10⟩, ⟨2, .clubs, .r10⟩, ⟨4, .spades, .r5⟩],
      dealer_hand := [⟨1, .hearts, .r9⟩, ⟨3, .diamonds, .r9⟩] }
    CardCounter.init rfl rfl rfl (by decide) (by decide) (by decide)

/-- C6 witness: the claimed sample points, e.g. a true count of −0.5
bets 0 while a true count of 6 bets 50, and the ramp between them is
non-decreasing. -/
theorem bet_ramp_spec_witness :
    get_bet_size (-(1 / 2)) ≤ get_bet_size 6 ∧
    ((-(1 / 2) : ℚ) < 0 → get_bet_size (-(1 / 2)) = 0) ∧
    ((0 : ℚ) ≤ -(1 / 2) → (-(1 / 2) : ℚ) < 1 → get_bet_size (-(1 / 2)) = 1) ∧
    ((1 : ℚ) ≤ -(1 / 2) → (-(1 / 2) : ℚ) < 2 → get_bet_size (-(1 / 2)) = 2) ∧
    ((2 : ℚ) ≤ -(1 / 2) → (-(1 / 2) : ℚ) < 3 → get_bet_size (-(1 / 2)) = 5) ∧
    ((3 : ℚ) ≤ -(1 / 2) → (-(1 / 2) : ℚ) < 4 → get_bet_size (-(1 / 2)) = 10) ∧
    ((4 : ℚ) ≤ -(1 / 2) → (-(1 / 2) : ℚ) < 5 → get_bet_size (-(1 / 2)) = 25) ∧
    ((5 : ℚ) ≤ -(1 / 2) → get_bet_size (-(1 / 2)) = 50) :=
  bet_ramp_spec (-(1 / 2)) 6 (by norm_num)

end Blackjack
